import Mathlib

/-!
Verification development for the spectrus real-time session layer.

The definitions below are a shallow embedding of:
  * the Go voice membership store (server/internal/hub/voice.go),
  * the Go connection hub event loop (server/internal/hub/hub.go, client.go,
    events.go),
  * the TypeScript SFU session model (media/src/Room.ts, the Peer module)
    and its HTTP routes (media/src/index.ts).

Go maps and the JS Map type are modelled as association lists
(`List (κ × α)`) with unique keys; the helper operations below mirror
lookup / assign / delete on such maps.
-/

section AssocMapDefs

variable {κ : Type} {α : Type} [DecidableEq κ]

/-- Lookup in an association list: first entry with the given key. -/
def alookup : List (κ × α) → κ → Option α
  | [], _ => none
  | p :: ps, k => if p.1 = k then some p.2 else alookup ps k

/-- Assignment in an association list: replace the first entry with the key,
or append a new entry if the key is absent (Go map assignment). -/
def aset : List (κ × α) → κ → α → List (κ × α)
  | [], k, v => [(k, v)]
  | p :: ps, k, v => if p.1 = k then (k, v) :: ps else p :: aset ps k v

/-- Deletion from an association list: remove the first entry with the key
(Go map delete). -/
def aerase : List (κ × α) → κ → List (κ × α)
  | [], _ => []
  | p :: ps, k => if p.1 = k then ps else p :: aerase ps k

/-- The keys of an association list. -/
def akeys (m : List (κ × α)) : List κ := m.map Prod.fst

/-- Well-formedness of an association list as a map: no duplicate keys. -/
def NodupKeys (m : List (κ × α)) : Prop := (akeys m).Nodup

instance (m : List (κ × α)) : Decidable (NodupKeys m) := by
  unfold NodupKeys; infer_instance

end AssocMapDefs

/-! ## Voice membership store (server/internal/hub/voice.go)

The store owns two maps, both protected by voiceMu in the source:
channelID → set of userIDs, and userID → current channelID.
Go's set `map[string]struct{}` is modelled as a `List String` without
duplicates; iteration order is irrelevant to every claim below. -/
/-- The two voice maps owned by the Hub. -/
structure VoiceMaps where
  voiceState : List (String × List String)
  userVoice : List (String × String)
deriving DecidableEq, Repr

/-- The initial (empty) voice state created by NewHub. -/
def VoiceMaps.empty : VoiceMaps := ⟨[], []⟩

/-- Adding a member to a Go set `map[string]struct{}`: a no-op when already
present. -/
def memberAdd (l : List String) (u : String) : List String :=
  if u ∈ l then l else l ++ [u]

/-- JoinVoiceChannel moves userID into channelID, removing the user from a
different previous channel first and pruning that channel if it became empty.
Returns the previous channelID, with the empty string meaning none
(voice.go, JoinVoiceChannel). -/
def JoinVoiceChannel (h : VoiceMaps) (userID channelID : String) :
    String × VoiceMaps :=
  let prev := (alookup h.userVoice userID).getD ""
  let vs1 :=
    if prev ≠ "" ∧ prev ≠ channelID then
      let ms := ((alookup h.voiceState prev).getD []).erase userID
      if ms = [] then aerase h.voiceState prev else aset h.voiceState prev ms
    else h.voiceState
  let cur := (alookup vs1 channelID).getD []
  let vs2 := aset vs1 channelID (memberAdd cur userID)
  let uv2 := aset h.userVoice userID channelID
  (prev, ⟨vs2, uv2⟩)

/-- LeaveVoiceChannel removes userID from whichever channel they occupy,
pruning the channel if it became empty. Returns the channel left and whether
the user was in one (voice.go, LeaveVoiceChannel). -/
def LeaveVoiceChannel (h : VoiceMaps) (userID : String) :
    (String × Bool) × VoiceMaps :=
  match alookup h.userVoice userID with
  | none => (("", false), h)
  | some channelID =>
      let uv := aerase h.userVoice userID
      let ms := ((alookup h.voiceState channelID).getD []).erase userID
      let vs :=
        if ms = [] then aerase h.voiceState channelID
        else aset h.voiceState channelID ms
      ((channelID, true), ⟨vs, uv⟩)

/-- VoiceChannelOf returns the channel the user is currently in, if any
(voice.go, VoiceChannelOf). -/
def VoiceChannelOf (h : VoiceMaps) (userID : String) : Option String :=
  alookup h.userVoice userID

/-- VoiceMembers returns a snapshot of the userIDs currently in the channel
(voice.go, VoiceMembers; an absent entry yields the empty snapshot). -/
def VoiceMembers (h : VoiceMaps) (channelID : String) : List String :=
  (alookup h.voiceState channelID).getD []

/-- Mutual consistency of the two maps: every member listed for a channel has
that channel recorded as their current one, and every recorded channel lists
its user as a member. -/
def consistentVoice (h : VoiceMaps) : Prop :=
  (∀ p ∈ h.voiceState, ∀ u ∈ p.2, alookup h.userVoice u = some p.1) ∧
  (∀ q ∈ h.userVoice, q.1 ∈ (alookup h.voiceState q.2).getD [])

/-- Structural well-formedness of the store plus mutual consistency: unique
keys in both maps, duplicate-free and nonempty member lists, no user recorded
in the sentinel channel id "". -/
def VoiceInv (h : VoiceMaps) : Prop :=
  NodupKeys h.voiceState ∧ NodupKeys h.userVoice ∧
  (∀ p ∈ h.voiceState, p.2.Nodup) ∧
  (∀ p ∈ h.voiceState, p.2 ≠ []) ∧
  (∀ q ∈ h.userVoice, q.2 ≠ "") ∧
  consistentVoice h

/-- A single operation against the voice store. -/
inductive VoiceOp where
  | join (u c : String)
  | leave (u : String)
deriving DecidableEq, Repr

/-- Run a sequence of store operations, discarding results. -/
def runVoiceOps (h : VoiceMaps) : List VoiceOp → VoiceMaps
  | [] => h
  | VoiceOp.join u c :: rest => runVoiceOps (JoinVoiceChannel h u c).2 rest
  | VoiceOp.leave u :: rest => runVoiceOps (LeaveVoiceChannel h u).2 rest

/-- An operation whose channel argument is a real (nonempty) channel id. -/
def VoiceOp.nonemptyChannel : VoiceOp → Prop
  | VoiceOp.join _ c => c ≠ ""
  | VoiceOp.leave _ => True

instance (op : VoiceOp) : Decidable op.nonemptyChannel := by
  cases op <;> (unfold VoiceOp.nonemptyChannel; infer_instance)

instance (h : VoiceMaps) : Decidable (consistentVoice h) := by
  unfold consistentVoice; infer_instance

instance (h : VoiceMaps) : Decidable (VoiceInv h) := by
  unfold VoiceInv; infer_instance

/-! ## Connection hub (server/internal/hub/hub.go, client.go, events.go)

Connections are identified by numeric ids (standing for the Go `*Client`
pointers). The hub's effects on the outside world — broadcast events, SFU
leave calls, executed `close(c.send)` statements — are recorded in append-only
ledgers so that claims about "exactly one broadcast / leave / close" can be
stated; `closedSends` gets one entry per executed close, so a connection id
occurring twice is Go's close-of-closed-channel panic. -/
/-- events.go: EventVoiceStateUpdate. -/
def EventVoiceStateUpdate : String := "VOICE_STATE_UPDATE"

/-- events.go: EventVoiceSignal. -/
def EventVoiceSignal : String := "VOICE_SIGNAL"

/-- A server→client event envelope (events.go Envelope), restricted to the
voice-state payload shape used by the claims. -/
structure EnvelopeM where
  etype : String
  userId : String
  channelId : Option String
deriving DecidableEq, Repr

/-- client.go: one Client. `queueLen` is the number of frames queued in its
send channel (capacity 256); `closedFlag` records whether close(c.send) ran. -/
structure ClientM where
  userId : String
  queueLen : Nat
  closedFlag : Bool
deriving DecidableEq, Repr

/-- client.go: capacity of the send channel created in newClient. -/
def sendCap : Nat := 256

/-- The hub state plus effect ledgers. -/
structure HubM where
  clients : List (Nat × ClientM)
  userIndex : List (String × List Nat)
  voice : VoiceMaps
  mediaConfigured : Bool
  pendingUnregister : List Nat
  closedSends : List Nat
  broadcasts : List EnvelopeM
  sfuLeaves : List (String × String)
  panics : Nat
deriving DecidableEq, Repr

/-- client.go sendEvent: queue the frame if the buffer has room; otherwise
close the send channel and schedule the connection for unregistration
(slow-consumer eviction). A send attempted on an already-closed channel is a
Go runtime panic, counted in `panics`. -/
def sendEventOne (h : HubM) (cid : Nat) : HubM :=
  match alookup h.clients cid with
  | none => h
  | some cl =>
      if cl.closedFlag then { h with panics := h.panics + 1 }
      else if cl.queueLen < sendCap then
        { h with clients := aset h.clients cid { cl with queueLen := cl.queueLen + 1 } }
      else
        { h with
            clients := aset h.clients cid { cl with closedFlag := true },
            closedSends := h.closedSends ++ [cid],
            pendingUnregister := h.pendingUnregister ++ [cid] }

/-- hub.go: deliver an event to every registered connection (the fan-out loop
shared by the broadcast case and the unregister case). -/
def fanOut (h : HubM) (evt : EnvelopeM) : HubM :=
  (akeys h.clients).foldl sendEventOne { h with broadcasts := h.broadcasts ++ [evt] }

/-- hub.go removeFromUserIndex. -/
def removeFromUserIndex (ui : List (String × List Nat)) (uid : String)
    (cid : Nat) : List (String × List Nat) :=
  let filtered := ((alookup ui uid).getD []).filter (fun c => c ≠ cid)
  if filtered = [] then aerase ui uid else aset ui uid filtered

/-- hub.go Run, register case. -/
def registerStep (h : HubM) (cid : Nat) (uid : String) : HubM :=
  { h with
      clients := aset h.clients cid ⟨uid, 0, false⟩,
      userIndex := aset h.userIndex uid (((alookup h.userIndex uid).getD []) ++ [cid]) }

/-- hub.go Run, unregister case: if the connection is still registered, drop
it from the client set and the user index, close its send channel, and — when
the user was in a voice channel — leave that channel, fire one SFU leave call
(if the media client is configured) and fan out one VOICE_STATE_UPDATE with a
null channel to the remaining connections. -/
def unregisterStep (h : HubM) (cid : Nat) : HubM :=
  match alookup h.clients cid with
  | none => h
  | some cl =>
      let h1 : HubM :=
        { h with
            clients := aerase h.clients cid,
            userIndex := removeFromUserIndex h.userIndex cl.userId cid,
            closedSends := h.closedSends ++ [cid] }
      let r := LeaveVoiceChannel h1.voice cl.userId
      if r.1.2 then
        let h2 : HubM :=
          { h1 with
              voice := r.2,
              sfuLeaves :=
                if h.mediaConfigured then h1.sfuLeaves ++ [(r.1.1, cl.userId)]
                else h1.sfuLeaves }
        fanOut h2 ⟨EventVoiceStateUpdate, cl.userId, none⟩
      else { h1 with voice := r.2 }

/-- A voice-signal frame as decoded from the wire (events.go
incomingVoiceSignal). -/
structure VoiceSignalPayload where
  channelId : String
  sigType : String
  sigData : String
deriving DecidableEq, Repr

/-- One Signal call against the SFU Gateway (internal/media Client.Signal). -/
structure SfuSignalCall where
  channelId : String
  userId : String
  sigType : String
  sigData : String
deriving DecidableEq, Repr

/-- The envelope a signal-forwarding goroutine sends back to the originating
connection only (events.go handleVoiceSignal, the c.sendEvent call). -/
structure RelayEnvelope where
  etype : String
  payloadType : String
  channelId : String
  respData : String
deriving DecidableEq, Repr

/-- events.go handleVoiceSignal, decision phase: whether the frame results in
an SFU Gateway Signal call. `parsed = none` models a json.Unmarshal failure.
All early returns yield `none`: the frame is dropped with no SFU call and
nothing sent back. -/
def handleVoiceSignal (mediaConfigured : Bool) (voice : VoiceMaps)
    (uid : String) (parsed : Option VoiceSignalPayload) : Option SfuSignalCall :=
  match parsed with
  | none => none
  | some pl =>
      if pl.channelId = "" ∨ pl.sigType = "" then none
      else if ¬ mediaConfigured then none
      else if VoiceChannelOf voice uid = some pl.channelId then
        some ⟨pl.channelId, uid, pl.sigType, pl.sigData⟩
      else none

/-- events.go handleVoiceSignal, relay phase: if a call was made and the SFU
responded with a body, the response goes back to this connection, tagged with
the payload type plus "_response". -/
def voiceSignalRelay (call : Option SfuSignalCall) (resp : Option String) :
    Option RelayEnvelope :=
  match call, resp with
  | some c, some r =>
      some ⟨EventVoiceSignal, c.sigType ++ "_response", c.channelId, r⟩
  | _, _ => none

/-- Effects of the join path of events.go handleVoiceStateUpdate (non-null
channel id): the store mutation, the optional SFU leave for the previous
channel (only on an actual switch), the SFU join, and the broadcast. -/
structure VoiceStateJoinOut where
  newVoice : VoiceMaps
  sfuLeave : Option (String × String)
  sfuJoin : Option (String × String)
  broadcastEvt : EnvelopeM
deriving DecidableEq, Repr

/-- events.go handleVoiceStateUpdate, join/switch branch. -/
def handleVoiceStateJoin (mediaConfigured : Bool) (voice : VoiceMaps)
    (uid newChannelId : String) : VoiceStateJoinOut :=
  let r := JoinVoiceChannel voice uid newChannelId
  { newVoice := r.2,
    sfuLeave :=
      if r.1 ≠ "" ∧ r.1 ≠ newChannelId ∧ mediaConfigured then some (r.1, uid)
      else none,
    sfuJoin := if mediaConfigured then some (newChannelId, uid) else none,
    broadcastEvt := ⟨EventVoiceStateUpdate, uid, some newChannelId⟩ }

/-! ## SFU session model (media/src/Room.ts, the Peer module, media/src/index.ts)

mediasoup objects are modelled structurally. Transports, producers and
consumers carry numeric ids drawn from a per-Room counter, mirroring
mediasoup's freshly generated UUIDs (in particular a newly created consumer
id never collides with an existing producer id). The mediasoup ownership
contract the source relies on — transport.close() fires transportclose on
everything created on that transport, and a closing producer fires
producerclose on the consumers sourced from it, exactly the events Room.ts
registers handlers for — is reflected in closeTransportOf. The router's
canConsume capability check is an opaque boolean parameter standing for the
given rtpCapabilities. -/
/-- One mediasoup Producer as accounted by a Peer: the transport it was
created on and its media kind. -/
structure ProducerM where
  tid : Nat
  kind : String
deriving DecidableEq, Repr

/-- One mediasoup Consumer as accounted by a Peer: its source producer id,
the source peer, the transport it lives on, and its paused flag. -/
structure ConsumerM where
  producerId : Nat
  producerUserId : String
  tid : Nat
  paused : Bool
deriving DecidableEq, Repr

/-- Peer (the Peer module): one user inside a Room, owning at most one send
and one receive transport, producers keyed by producer id and consumers
keyed by consumer id. -/
structure PeerM where
  userId : String
  sendTransport : Option Nat
  recvTransport : Option Nat
  producers : List (Nat × ProducerM)
  consumers : List (Nat × ConsumerM)
deriving DecidableEq, Repr

/-- new Peer(userId). -/
def PeerM.mkNew (uid : String) : PeerM := ⟨uid, none, none, [], []⟩

/-- The producer ids that close together with transport `t` of peer `uid`. -/
def closedProducerIds (peers : List (String × PeerM)) (uid : String)
    (t : Nat) : List Nat :=
  match alookup peers uid with
  | none => []
  | some peer =>
      (peer.producers.filter (fun kv => kv.2.tid = t)).map Prod.fst

/-- Closing one transport of peer `uid`: the owner loses every producer and
consumer created on it (their transportclose handlers delete them from the
Peer's maps), and every peer in the room loses the consumers sourced from the
now-closed producers (their producerclose handlers). -/
def closeTransportOf (peers : List (String × PeerM)) (uid : String) :
    Option Nat → List (String × PeerM)
  | none => peers
  | some t =>
      let closed := closedProducerIds peers uid t
      let peers1 :=
        match alookup peers uid with
        | none => peers
        | some peer =>
            aset peers uid
              { peer with
                  producers := peer.producers.filter (fun kv => ¬ kv.2.tid = t),
                  consumers := peer.consumers.filter (fun kv => ¬ kv.2.tid = t) }
      peers1.map (fun e =>
        (e.1, { e.2 with
            consumers := e.2.consumers.filter
              (fun kv => ¬ kv.2.producerId ∈ closed) }))

/-- Room (Room.ts): channel id, peers, and the fresh-id counter standing for
mediasoup's id generation (the router is represented by the canConsume
parameter of signal). -/
structure RoomM where
  channelId : String
  peers : List (String × PeerM)
  nextId : Nat
deriving DecidableEq, Repr

/-- Room.create. -/
def RoomM.create (channelId : String) : RoomM := ⟨channelId, [], 0⟩

/-- The transport parameters Room.join returns to the client (reduced to the
ids that identify the created transports). -/
structure JoinOut where
  sendTransportId : Nat
  recvTransportId : Nat
deriving DecidableEq, Repr

/-- Room.join: find or create the Peer, close its stale transports (with the
full cascade), then create a fresh send/receive transport pair. -/
def RoomM.join (r : RoomM) (userId : String) : JoinOut × RoomM :=
  let peers0 :=
    if (alookup r.peers userId).isSome then r.peers
    else aset r.peers userId (PeerM.mkNew userId)
  let peer := (alookup peers0 userId).getD (PeerM.mkNew userId)
  let peers1 := closeTransportOf peers0 userId peer.sendTransport
  let peers2 := closeTransportOf peers1 userId peer.recvTransport
  let sendT := r.nextId
  let recvT := r.nextId + 1
  let peer2 := (alookup peers2 userId).getD (PeerM.mkNew userId)
  let peers3 := aset peers2 userId
    { peer2 with sendTransport := some sendT, recvTransport := some recvT }
  (⟨sendT, recvT⟩, ⟨r.channelId, peers3, r.nextId + 2⟩)

/-- Room.ts SignalPayload, with opaque negotiation data elided. -/
inductive SignalPayloadM where
  | connectSend
  | connectRecv
  | produce (kind : String)
  | consume
  | resumeConsumer (consumerId : Nat)
deriving DecidableEq, Repr

/-- Failures Room.signal can throw: PeerNotFoundError, or a plain Error
(such as the one thrown by resume-consumer for an unknown consumer, or a
TypeError from the non-null transport assertions). -/
inductive SignalErr where
  | peerNotFound (userId : String)
  | generic (msg : String)
deriving DecidableEq, Repr

/-- One entry of the consumer list returned by the consume branch. -/
structure ConsumerDesc where
  id : Nat
  producerId : Nat
  producerUserId : String
  kind : String
deriving DecidableEq, Repr

/-- Result values of Room.signal. -/
inductive SignalOut where
  | emptyObj
  | produced (producerId : Nat)
  | consumed (descs : List ConsumerDesc)
deriving DecidableEq, Repr

/-- The inner consume loop over one remote peer's producers. State:
(descriptors so far, the consuming peer's consumer map, next fresh id).
The skip test mirrors the source line `if (peer.consumers.has(producerId))
continue`: it looks the producer id up in a map keyed by consumer ids. -/
def consumeFromPeer (canConsume : Nat → Bool) (recvT : Nat)
    (otherUserId : String) (prods : List (Nat × ProducerM))
    (st : List ConsumerDesc × List (Nat × ConsumerM) × Nat) :
    List ConsumerDesc × List (Nat × ConsumerM) × Nat :=
  prods.foldl
    (fun st kv =>
      if (alookup st.2.1 kv.1).isSome then st
      else if ¬ canConsume kv.1 then st
      else
        (st.1 ++ [⟨st.2.2, kv.1, otherUserId, kv.2.kind⟩],
         aset st.2.1 st.2.2 ⟨kv.1, otherUserId, recvT, true⟩,
         st.2.2 + 1))
    st

/-- Room.signal. -/
def RoomM.signal (canConsume : Nat → Bool) (r : RoomM) (userId : String)
    (payload : SignalPayloadM) : Except SignalErr (SignalOut × RoomM) :=
  match alookup r.peers userId with
  | none => .error (.peerNotFound userId)
  | some peer =>
      match payload with
      | .connectSend =>
          match peer.sendTransport with
          | none => .error (.generic "no send transport")
          | some _ => .ok (.emptyObj, r)
      | .connectRecv =>
          match peer.recvTransport with
          | none => .error (.generic "no recv transport")
          | some _ => .ok (.emptyObj, r)
      | .produce kind =>
          match peer.sendTransport with
          | none => .error (.generic "no send transport")
          | some t =>
              let pid := r.nextId
              let peer1 :=
                { peer with producers := aset peer.producers pid ⟨t, kind⟩ }
              .ok (.produced pid,
                   ⟨r.channelId, aset r.peers userId peer1, r.nextId + 1⟩)
      | .consume =>
          match peer.recvTransport with
          | none => .error (.generic "no recv transport")
          | some t =>
              let st := r.peers.foldl
                (fun st e =>
                  if e.1 = userId then st
                  else consumeFromPeer canConsume t e.1 e.2.producers st)
                ([], peer.consumers, r.nextId)
              let peer1 := { peer with consumers := st.2.1 }
              .ok (.consumed st.1,
                   ⟨r.channelId, aset r.peers userId peer1, st.2.2⟩)
      | .resumeConsumer cid =>
          match alookup peer.consumers cid with
          | none => .error (.generic "consumer not found")
          | some cons =>
              let peer1 :=
                { peer with
                    consumers := aset peer.consumers cid { cons with paused := false } }
              .ok (.emptyObj, ⟨r.channelId, aset r.peers userId peer1, r.nextId⟩)

/-- Room.removePeer: close the peer (cascading through its transports),
drop it from the map, and report whether the room is now empty. -/
def RoomM.removePeer (r : RoomM) (userId : String) : Bool × RoomM :=
  match alookup r.peers userId with
  | none => (r.peers.isEmpty, r)
  | some peer =>
      let peers1 := closeTransportOf r.peers userId peer.sendTransport
      let peers2 := closeTransportOf peers1 userId peer.recvTransport
      let peers3 := aerase peers2 userId
      (peers3.isEmpty, ⟨r.channelId, peers3, r.nextId⟩)

/-- index.ts: the in-memory room registry. -/
structure MediaRegistry where
  rooms : List (String × RoomM)
deriving DecidableEq, Repr

def MediaRegistry.empty : MediaRegistry := ⟨[]⟩

/-- The HTTP status and updated registry a route produces. -/
structure RouteOut where
  status : Nat
  reg : MediaRegistry
deriving DecidableEq, Repr

/-- index.ts POST /rooms/:channel_id/join: create the room lazily on first
join, reuse an existing room otherwise. -/
def joinRoute (reg : MediaRegistry) (channelId userId : String) : RouteOut :=
  if userId = "" then ⟨400, reg⟩
  else
    let room :=
      match alookup reg.rooms channelId with
      | some room => room
      | none => RoomM.create channelId
    ⟨200, ⟨aset reg.rooms channelId (room.join userId).2⟩⟩

/-- index.ts POST /rooms/:channel_id/signal. `sig = none` models a request
whose signal.type string is not among validTypes (rejected with 400 after the
room lookup); PeerNotFoundError maps to 404, any other thrown error to 500. -/
def signalRoute (canConsume : Nat → Bool) (reg : MediaRegistry)
    (channelId userId : String) (sig : Option SignalPayloadM) : RouteOut :=
  if userId = "" then ⟨400, reg⟩
  else
    match alookup reg.rooms channelId with
    | none => ⟨404, reg⟩
    | some room =>
        match sig with
        | none => ⟨400, reg⟩
        | some payload =>
            match room.signal canConsume userId payload with
            | .error (.peerNotFound _) => ⟨404, reg⟩
            | .error (.generic _) => ⟨500, reg⟩
            | .ok (_, room1) => ⟨200, ⟨aset reg.rooms channelId room1⟩⟩

/-- index.ts DELETE /rooms/:channel_id/leave: idempotent 204; the room is
closed and dropped from the registry exactly when its peer set became
empty. -/
def leaveRoute (reg : MediaRegistry) (channelId userId : String) : RouteOut :=
  if userId = "" then ⟨400, reg⟩
  else
    match alookup reg.rooms channelId with
    | none => ⟨204, reg⟩
    | some room =>
        let r := room.removePeer userId
        if r.1 then ⟨204, ⟨aerase reg.rooms channelId⟩⟩
        else ⟨204, ⟨aset reg.rooms channelId r.2⟩⟩

/-- Test-harness helper: the room state after a signal call, unchanged when
the call failed. -/
def roomAfter (canConsume : Nat → Bool) (r : RoomM) (u : String)
    (p : SignalPayloadM) : RoomM :=
  match RoomM.signal canConsume r u p with
  | .ok (_, r1) => r1
  | .error _ => r

/-- Structural ownership invariant of a Peer: every producer lives on the
peer's send transport and every consumer on its receive transport, exactly
how Room.signal creates them. -/
def PeerWF (p : PeerM) : Prop :=
  (∀ kv ∈ p.producers, some kv.2.tid = p.sendTransport) ∧
  (∀ kv ∈ p.consumers, some kv.2.tid = p.recvTransport)

instance (p : PeerM) : Decidable (PeerWF p) := by
  unfold PeerWF; infer_instance

/-- A hub with two registered connections of user u1, who is in voice
channel "general". -/
def c2state : HubM :=
  { clients := [(1, ⟨"u1", 0, false⟩), (2, ⟨"u1", 0, false⟩)],
    userIndex := [("u1", [1, 2])],
    voice := ⟨[("general", ["u1"])], [("u1", "general")]⟩,
    mediaConfigured := true,
    pendingUnregister := [], closedSends := [], broadcasts := [],
    sfuLeaves := [], panics := 0 }

/-- A hub with a single registered connection of user u1, in "general". -/
def c2solo : HubM :=
  { clients := [(7, ⟨"u1", 0, false⟩)],
    userIndex := [("u1", [7])],
    voice := ⟨[("general", ["u1"])], [("u1", "general")]⟩,
    mediaConfigured := true,
    pendingUnregister := [], closedSends := [], broadcasts := [],
    sfuLeaves := [], panics := 0 }

/-- A hub with one registered connection of u1 whose 256-slot send buffer is
completely full. -/
def c4state : HubM :=
  { clients := [(1, ⟨"u1", 256, false⟩)],
    userIndex := [("u1", [1])],
    voice := VoiceMaps.empty,
    mediaConfigured := true,
    pendingUnregister := [], closedSends := [], broadcasts := [],
    sfuLeaves := [], panics := 0 }

/-- The registry after u1 joined channel "general" on a fresh SFU. -/
def c7reg : MediaRegistry := (joinRoute MediaRegistry.empty "general" "u1").reg

def c7room : RoomM := (alookup c7reg.rooms "general").getD (RoomM.create "general")

def c7peer : PeerM := (alookup c7room.peers "u1").getD (PeerM.mkNew "u1")

/-- A room where A produced one stream and B consumed it. -/
def c9room : RoomM :=
  roomAfter (fun _ => true)
    (roomAfter (fun _ => true)
      ((((RoomM.create "general").join "A").2.join "B").2)
      "A" (SignalPayloadM.produce "audio"))
    "B" SignalPayloadM.consume

def c9peerA : PeerM := (alookup c9room.peers "A").getD (PeerM.mkNew "A")

/-- A room with peers A and B after A produced one stream (producer id 4). -/
def c1room3 : RoomM :=
  roomAfter (fun _ => true)
    ((((RoomM.create "general").join "A").2.join "B").2)
    "A" (SignalPayloadM.produce "audio")

/-- The same room after B's first consume call created consumer 5 for A's
producer 4. -/
def c1room4 : RoomM :=
  roomAfter (fun _ => true) c1room3 "B" SignalPayloadM.consume

/-- The consumer descriptors a signal call returned (empty for any other
outcome). -/
def consumeDescsOf (e : Except SignalErr (SignalOut × RoomM)) :
    List ConsumerDesc :=
  match e with
  | .ok (SignalOut.consumed l, _) => l
  | _ => []

section AssocMapLemmas

variable {κ : Type} {α : Type} [DecidableEq κ]

theorem nodupKeys_cons_iff {p : κ × α} {ps : List (κ × α)} :
    NodupKeys (p :: ps) ↔ p.1 ∉ akeys ps ∧ NodupKeys ps := by
  simp [NodupKeys, akeys]

theorem alookup_aset_self (m : List (κ × α)) (k : κ) (v : α) :
    alookup (aset m k v) k = some v := by
  induction m with
  | nil => simp [aset, alookup]
  | cons p ps ih =>
      by_cases h : p.1 = k
      · simp [aset, h, alookup]
      · simp [aset, h, alookup, ih]

theorem alookup_aset_ne (m : List (κ × α)) {k k' : κ} (v : α) (h : k' ≠ k) :
    alookup (aset m k v) k' = alookup m k' := by
  induction m with
  | nil => simp [aset, alookup, Ne.symm h]
  | cons p ps ih =>
      by_cases hp : p.1 = k
      · subst hp
        simp [aset, alookup, Ne.symm h]
      · simp [aset, alookup, hp, ih]

theorem alookup_aerase_ne (m : List (κ × α)) {k k' : κ} (h : k' ≠ k) :
    alookup (aerase m k) k' = alookup m k' := by
  induction m with
  | nil => simp [aerase]
  | cons p ps ih =>
      by_cases hp : p.1 = k
      · subst hp
        simp [aerase, alookup, Ne.symm h]
      · simp [aerase, alookup, hp, ih]

theorem akeys_aerase_sublist (m : List (κ × α)) (k : κ) :
    List.Sublist (akeys (aerase m k)) (akeys m) := by
  induction m with
  | nil => simp [aerase, akeys]
  | cons p ps ih =>
      by_cases hp : p.1 = k
      · simp only [aerase, if_pos hp, akeys, List.map_cons]
        exact List.Sublist.cons p.1 (List.Sublist.refl _)
      · simp only [aerase, if_neg hp, akeys, List.map_cons]
        exact List.Sublist.cons₂ p.1 ih

theorem nodupKeys_aerase {m : List (κ × α)} (k : κ) (h : NodupKeys m) :
    NodupKeys (aerase m k) :=
  (akeys_aerase_sublist m k).nodup h

theorem mem_aerase_weak {m : List (κ × α)} {k : κ} {p : κ × α}
    (h : p ∈ aerase m k) : p ∈ m := by
  induction m with
  | nil => simp [aerase] at h
  | cons q ps ih =>
      by_cases hq : q.1 = k
      · simp only [aerase, if_pos hq] at h
        exact List.mem_cons_of_mem _ h
      · simp only [aerase, if_neg hq, List.mem_cons] at h
        rcases h with h | h
        · exact List.mem_cons.mpr (Or.inl h)
        · exact List.mem_cons_of_mem _ (ih h)

theorem mem_aset_weak {m : List (κ × α)} {k : κ} {v : α} {p : κ × α}
    (h : p ∈ aset m k v) : p ∈ m ∨ p = (k, v) := by
  induction m with
  | nil =>
      simp only [aset, List.mem_singleton] at h
      exact Or.inr h
  | cons q ps ih =>
      by_cases hq : q.1 = k
      · simp only [aset, if_pos hq, List.mem_cons] at h
        rcases h with h | h
        · exact Or.inr h
        · exact Or.inl (List.mem_cons_of_mem _ h)
      · simp only [aset, if_neg hq, List.mem_cons] at h
        rcases h with h | h
        · exact Or.inl (List.mem_cons.mpr (Or.inl h))
        · rcases ih h with h' | h'
          · exact Or.inl (List.mem_cons_of_mem _ h')
          · exact Or.inr h'

theorem alookup_eq_none_iff (m : List (κ × α)) (k : κ) :
    alookup m k = none ↔ k ∉ akeys m := by
  induction m with
  | nil => simp [alookup, akeys]
  | cons p ps ih =>
      by_cases hp : p.1 = k
      · simp [alookup, akeys, hp]
      · have hk : ¬ k = p.1 := fun hh => hp hh.symm
        simp [alookup, akeys, hp, ih, hk]

theorem mem_of_alookup_eq_some {m : List (κ × α)} {k : κ} {v : α}
    (h : alookup m k = some v) : (k, v) ∈ m := by
  induction m with
  | nil => simp [alookup] at h
  | cons p ps ih =>
      by_cases hp : p.1 = k
      · simp only [alookup, if_pos hp, Option.some.injEq] at h
        subst hp
        subst h
        exact List.mem_cons.mpr (Or.inl rfl)
      · simp only [alookup, if_neg hp] at h
        exact List.mem_cons_of_mem _ (ih h)

theorem alookup_eq_some_of_mem {m : List (κ × α)} {k : κ} {v : α}
    (hn : NodupKeys m) (h : (k, v) ∈ m) : alookup m k = some v := by
  induction m with
  | nil => simp at h
  | cons p ps ih =>
      have hc := nodupKeys_cons_iff.mp hn
      rcases List.mem_cons.mp h with h | h
      · rw [← h]
        simp [alookup]
      · have hmem : k ∈ akeys ps := by
          have hmm := List.mem_map_of_mem Prod.fst h
          simpa [akeys] using hmm
        have hk : ¬ p.1 = k := fun hpk => hc.1 (by rwa [hpk])
        simp only [alookup, if_neg hk]
        exact ih hc.2 h

theorem mem_akeys_aset {m : List (κ × α)} {k k' : κ} {v : α}
    (h : k' ∈ akeys (aset m k v)) : k' ∈ akeys m ∨ k' = k := by
  induction m with
  | nil =>
      simp only [aset, akeys, List.map_cons, List.map_nil, List.mem_singleton] at h
      exact Or.inr h
  | cons p ps ih =>
      by_cases hp : p.1 = k
      · simp only [aset, if_pos hp, akeys, List.map_cons, List.mem_cons] at h
        rcases h with h | h
        · exact Or.inr h
        · exact Or.inl (List.mem_cons_of_mem _ h)
      · simp only [aset, if_neg hp, akeys, List.map_cons, List.mem_cons] at h
        rcases h with h | h
        · exact Or.inl (List.mem_cons.mpr (Or.inl h))
        · rcases ih h with h' | h'
          · exact Or.inl (List.mem_cons_of_mem _ h')
          · exact Or.inr h'

theorem nodupKeys_aset {m : List (κ × α)} (k : κ) (v : α) (h : NodupKeys m) :
    NodupKeys (aset m k v) := by
  induction m with
  | nil => simp [aset, NodupKeys, akeys]
  | cons p ps ih =>
      have hc := nodupKeys_cons_iff.mp h
      by_cases hp : p.1 = k
      · subst hp
        rw [show aset (p :: ps) p.1 v = (p.1, v) :: ps from by simp [aset]]
        exact nodupKeys_cons_iff.mpr ⟨hc.1, hc.2⟩
      · rw [show aset (p :: ps) k v = p :: aset ps k v from by simp [aset, hp]]
        refine nodupKeys_cons_iff.mpr ⟨?_, ih hc.2⟩
        intro hmem
        rcases mem_akeys_aset hmem with h' | h'
        · exact hc.1 h'
        · exact hp h'

theorem mem_aset_iff {m : List (κ × α)} (hn : NodupKeys m) {k : κ} {v : α} {p : κ × α} :
    p ∈ aset m k v ↔ p = (k, v) ∨ (p ∈ m ∧ p.1 ≠ k) := by
  induction m with
  | nil => simp [aset]
  | cons q ps ih =>
      have hc := nodupKeys_cons_iff.mp hn
      by_cases hq : q.1 = k
      · subst hq
        rw [show aset (q :: ps) q.1 v = (q.1, v) :: ps from by simp [aset]]
        simp only [List.mem_cons]
        constructor
        · intro h
          rcases h with h | h
          · exact Or.inl h
          · refine Or.inr ⟨Or.inr h, ?_⟩
            intro hpk
            exact hc.1 (by
              have hmm := List.mem_map_of_mem Prod.fst h
              rw [hpk] at hmm
              simpa [akeys] using hmm)
        · intro h
          rcases h with h | ⟨h, hne⟩
          · exact Or.inl h
          · rcases h with h | h
            · exact absurd (h ▸ rfl) hne
            · exact Or.inr h
      · rw [show aset (q :: ps) k v = q :: aset ps k v from by simp [aset, hq]]
        simp only [List.mem_cons, ih hc.2]
        constructor
        · intro h
          rcases h with h | h | ⟨h, hne⟩
          · exact Or.inr ⟨Or.inl h, h ▸ hq⟩
          · exact Or.inl h
          · exact Or.inr ⟨Or.inr h, hne⟩
        · intro h
          rcases h with h | ⟨h | h, hne⟩
          · exact Or.inr (Or.inl h)
          · exact Or.inl h
          · exact Or.inr (Or.inr ⟨h, hne⟩)

theorem mem_aerase_iff {m : List (κ × α)} (hn : NodupKeys m) {k : κ} {p : κ × α} :
    p ∈ aerase m k ↔ p ∈ m ∧ p.1 ≠ k := by
  induction m with
  | nil => simp [aerase]
  | cons q ps ih =>
      have hc := nodupKeys_cons_iff.mp hn
      by_cases hq : q.1 = k
      · subst hq
        rw [show aerase (q :: ps) q.1 = ps from by simp [aerase]]
        simp only [List.mem_cons]
        constructor
        · intro h
          refine ⟨Or.inr h, ?_⟩
          intro hpk
          exact hc.1 (by
            have hmm := List.mem_map_of_mem Prod.fst h
            rw [hpk] at hmm
            simpa [akeys] using hmm)
        · rintro ⟨h, hne⟩
          rcases h with h | h
          · exact absurd (h ▸ rfl) hne
          · exact h
      · rw [show aerase (q :: ps) k = q :: aerase ps k from by simp [aerase, hq]]
        simp only [List.mem_cons, ih hc.2]
        constructor
        · intro h
          rcases h with h | ⟨h, hne⟩
          · exact ⟨Or.inl h, h ▸ hq⟩
          · exact ⟨Or.inr h, hne⟩
        · rintro ⟨h, hne⟩
          rcases h with h | h
          · exact Or.inl h
          · exact Or.inr ⟨h, hne⟩

theorem aset_of_lookup_eq {m : List (κ × α)} {k : κ} {v : α}
    (h : alookup m k = some v) : aset m k v = m := by
  induction m with
  | nil => simp [alookup] at h
  | cons p ps ih =>
      by_cases hp : p.1 = k
      · simp only [alookup, if_pos hp, Option.some.injEq] at h
        rw [show aset (p :: ps) k v = (k, v) :: ps from by simp [aset, hp]]
        rw [← hp, ← h]
      · simp only [alookup, if_neg hp] at h
        rw [show aset (p :: ps) k v = p :: aset ps k v from by simp [aset, hp]]
        rw [ih h]

theorem alookup_aerase_self {m : List (κ × α)} (hn : NodupKeys m) (k : κ) :
    alookup (aerase m k) k = none := by
  rw [alookup_eq_none_iff]
  intro hk
  simp only [akeys] at hk
  obtain ⟨p, hp, hpk⟩ := List.mem_map.mp hk
  exact ((mem_aerase_iff hn).mp hp).2 hpk

theorem akeys_aset_mem {m : List (κ × α)} {k : κ} (v : α)
    (h : (alookup m k).isSome) : akeys (aset m k v) = akeys m := by
  induction m with
  | nil => simp [alookup] at h
  | cons p ps ih =>
      by_cases hp : p.1 = k
      · subst hp
        simp [aset, akeys]
      · have h' : (alookup ps k).isSome := by
          simpa [alookup, hp] using h
        simp only [aset, if_neg hp, akeys, List.map_cons]
        rw [show List.map Prod.fst (aset ps k v) = akeys (aset ps k v) from rfl,
          ih h']
        rfl

theorem akeys_map_pair {β : Type} (l : List (κ × β)) (g : κ × β → β) :
    akeys (l.map (fun e => (e.1, g e))) = akeys l := by
  induction l with
  | nil => rfl
  | cons p ps ih => simp only [List.map_cons, akeys, List.map_cons] at ih ⊢; rw [ih]

end AssocMapLemmas

theorem memberAdd_mem_iff {l : List String} {u w : String} :
    w ∈ memberAdd l u ↔ w ∈ l ∨ w = u := by
  unfold memberAdd
  by_cases h : u ∈ l
  · simp only [if_pos h]
    constructor
    · exact Or.inl
    · intro hw
      rcases hw with hw | hw
      · exact hw
      · exact hw ▸ h
  · simp [if_neg h]

theorem memberAdd_nodup {l : List String} (u : String) (h : l.Nodup) :
    (memberAdd l u).Nodup := by
  unfold memberAdd
  by_cases hm : u ∈ l
  · simpa [hm] using h
  · simp [hm, List.nodup_append, h]

theorem memberAdd_ne_nil (l : List String) (u : String) : memberAdd l u ≠ [] := by
  intro hcontra
  have : u ∈ memberAdd l u := memberAdd_mem_iff.mpr (Or.inr rfl)
  rw [hcontra] at this
  simp at this

/-- The common second half of a voice-map mutation: add `u` to channel `c`
and record `c` as `u`'s channel, starting from maps in which `u` occurs in
no member list. The resulting store satisfies the full invariant. -/
theorem voiceInv_addStep
    {vs1 : List (String × List String)} {uv : List (String × String)}
    {u c : String} (hc : c ≠ "")
    (hn1 : NodupKeys vs1) (hn2 : NodupKeys uv)
    (hnd : ∀ p ∈ vs1, p.2.Nodup) (hne : ∀ p ∈ vs1, p.2 ≠ [])
    (hvals : ∀ q ∈ uv, q.2 ≠ "")
    (hdir1 : ∀ p ∈ vs1, ∀ w ∈ p.2, alookup uv w = some p.1)
    (hu_not : ∀ p ∈ vs1, u ∉ p.2)
    (hdir2 : ∀ q ∈ uv, q.1 ≠ u → q.1 ∈ (alookup vs1 q.2).getD []) :
    VoiceInv ⟨aset vs1 c (memberAdd ((alookup vs1 c).getD []) u), aset uv u c⟩ := by
  set cur := (alookup vs1 c).getD [] with hcur
  have hcur_sub : ∀ w ∈ cur, ∃ p, p ∈ vs1 ∧ p.1 = c ∧ w ∈ p.2 := by
    intro w hw
    rw [hcur] at hw
    cases hx : alookup vs1 c with
    | none => rw [hx] at hw; simp at hw
    | some ms =>
        rw [hx] at hw
        exact ⟨(c, ms), mem_of_alookup_eq_some hx, rfl, hw⟩
  have hcur_nodup : cur.Nodup := by
    rw [hcur]
    cases hx : alookup vs1 c with
    | none => simp
    | some ms => simpa using hnd _ (mem_of_alookup_eq_some hx)
  refine ⟨nodupKeys_aset _ _ hn1, nodupKeys_aset _ _ hn2, ?_, ?_, ?_, ?_, ?_⟩
  · -- member lists stay duplicate-free
    intro p hp
    rcases (mem_aset_iff hn1).mp hp with hp | ⟨hp, _⟩
    · rw [hp]
      exact memberAdd_nodup u hcur_nodup
    · exact hnd _ hp
  · -- member lists stay nonempty
    intro p hp
    rcases (mem_aset_iff hn1).mp hp with hp | ⟨hp, _⟩
    · rw [hp]
      exact memberAdd_ne_nil _ _
    · exact hne _ hp
  · -- recorded channels stay nonempty strings
    intro q hq
    rcases (mem_aset_iff hn2).mp hq with hq | ⟨hq, _⟩
    · rw [hq]
      exact hc
    · exact hvals _ hq
  · -- consistency, direction: member of a channel list points back to it
    intro p hp w hw
    rcases (mem_aset_iff hn1).mp hp with hp | ⟨hp, hpne⟩
    · rw [hp] at hw ⊢
      rcases memberAdd_mem_iff.mp hw with hw | hw
      · obtain ⟨pr, hpr, hprc, hwpr⟩ := hcur_sub w hw
        have hwu : w ≠ u := fun hcontra => hu_not pr hpr (hcontra ▸ hwpr)
        rw [alookup_aset_ne uv c hwu, hdir1 pr hpr w hwpr, hprc]
      · rw [hw]
        exact alookup_aset_self uv u c
    · have hwu : w ≠ u := fun hcontra => hu_not p hp (hcontra ▸ hw)
      rw [alookup_aset_ne uv c hwu]
      exact hdir1 p hp w hw
  · -- consistency, direction: a recorded channel lists its user
    intro q hq
    rcases (mem_aset_iff hn2).mp hq with hq | ⟨hq, hqne⟩
    · rw [hq]
      simp only [alookup_aset_self, Option.getD_some]
      exact memberAdd_mem_iff.mpr (Or.inr rfl)
    · have hq1 := hdir2 q hq hqne
      by_cases hqc : q.2 = c
      · rw [hqc]
        simp only [alookup_aset_self, Option.getD_some]
        rw [hqc] at hq1
        exact memberAdd_mem_iff.mpr (Or.inl hq1)
      · rw [alookup_aset_ne vs1 _ hqc]
        exact hq1

/-- Re-joining the channel the user is already a member of leaves the store
unchanged and returns that channel. -/
theorem join_rejoin_eq {vs : List (String × List String)}
    {uv : List (String × String)} {u c : String}
    (huv : alookup uv u = some c)
    (hmem : u ∈ (alookup vs c).getD []) :
    JoinVoiceChannel ⟨vs, uv⟩ u c = (c, ⟨vs, uv⟩) := by
  obtain ⟨ms, hms⟩ : ∃ ms, alookup vs c = some ms := by
    cases hx : alookup vs c with
    | none => rw [hx] at hmem; simp at hmem
    | some ms => exact ⟨ms, rfl⟩
  rw [hms] at hmem
  simp only [Option.getD_some] at hmem
  have hadd : memberAdd ms u = ms := by simp [memberAdd, hmem]
  have hcond : ¬(c ≠ "" ∧ c ≠ c) := fun hx => hx.2 rfl
  simp only [JoinVoiceChannel, huv, Option.getD_some]
  rw [if_neg hcond, hms]
  simp only [Option.getD_some, hadd]
  rw [aset_of_lookup_eq hms, aset_of_lookup_eq huv]

/-- JoinVoiceChannel preserves the store invariant when the target channel id
is a real (nonempty) one. -/
theorem voiceInv_join {h : VoiceMaps} (hin : VoiceInv h) {u c : String}
    (hc : c ≠ "") : VoiceInv (JoinVoiceChannel h u c).2 := by
  obtain ⟨vs, uv⟩ := h
  obtain ⟨hn1, hn2, hnd, hne, hvals, hdir1, hdir2⟩ := hin
  simp only at hn1 hn2 hnd hne hvals hdir1 hdir2
  cases huv : alookup uv u with
  | none =>
      have hcond : ¬(("" : String) ≠ "" ∧ ("" : String) ≠ c) := fun hx => hx.1 rfl
      have hstep : (JoinVoiceChannel ⟨vs, uv⟩ u c).2 =
          ⟨aset vs c (memberAdd ((alookup vs c).getD []) u), aset uv u c⟩ := by
        simp only [JoinVoiceChannel, huv, Option.getD_none]
        rw [if_neg hcond]
      rw [hstep]
      refine voiceInv_addStep hc hn1 hn2 hnd hne hvals hdir1 ?_ ?_
      · intro p hp hup
        have hx := hdir1 p hp u hup
        rw [huv] at hx
        exact Option.noConfusion hx
      · intro q hq _
        exact hdir2 q hq
  | some p =>
      by_cases hpc : p = c
      · subst hpc
        have hmem : u ∈ (alookup vs p).getD [] :=
          hdir2 (u, p) (mem_of_alookup_eq_some huv)
        rw [show (JoinVoiceChannel ⟨vs, uv⟩ u p).2 = ⟨vs, uv⟩ from by
          rw [join_rejoin_eq huv hmem]]
        exact ⟨hn1, hn2, hnd, hne, hvals, hdir1, hdir2⟩
      · have hp_ne : p ≠ "" := hvals (u, p) (mem_of_alookup_eq_some huv)
        have hmem : u ∈ (alookup vs p).getD [] :=
          hdir2 (u, p) (mem_of_alookup_eq_some huv)
        obtain ⟨ms0, hms0⟩ : ∃ ms0, alookup vs p = some ms0 := by
          cases hx : alookup vs p with
          | none => rw [hx] at hmem; simp at hmem
          | some m => exact ⟨m, rfl⟩
        rw [hms0] at hmem
        simp only [Option.getD_some] at hmem
        have hms0_nodup : ms0.Nodup := hnd _ (mem_of_alookup_eq_some hms0)
        set ms : List String := ms0.erase u with hms_def
        set vs1 : List (String × List String) :=
          if ms = [] then aerase vs p else aset vs p ms with hvs1_def
        have hstep : (JoinVoiceChannel ⟨vs, uv⟩ u c).2 =
            ⟨aset vs1 c (memberAdd ((alookup vs1 c).getD []) u), aset uv u c⟩ := by
          rw [hvs1_def, hms_def]
          simp only [JoinVoiceChannel, huv, Option.getD_some, hms0]
          rw [if_pos ⟨hp_ne, hpc⟩]
        rw [hstep]
        have hmem_vs1 : ∀ q ∈ vs1, q ∈ vs ∨ q = (p, ms) := by
          intro q hq
          rw [hvs1_def] at hq
          by_cases hnil : ms = []
          · rw [if_pos hnil] at hq
            exact Or.inl (mem_aerase_weak hq)
          · rw [if_neg hnil] at hq
            exact mem_aset_weak hq
        have hn1' : NodupKeys vs1 := by
          rw [hvs1_def]
          by_cases hnil : ms = []
          · rw [if_pos hnil]; exact nodupKeys_aerase p hn1
          · rw [if_neg hnil]; exact nodupKeys_aset p ms hn1
        refine voiceInv_addStep hc hn1' hn2 ?_ ?_ hvals ?_ ?_ ?_
        · intro q hq
          rcases hmem_vs1 q hq with hq' | hq'
          · exact hnd _ hq'
          · rw [hq']
            exact hms0_nodup.erase u
        · intro q hq
          rcases hmem_vs1 q hq with hq' | hq'
          · exact hne _ hq'
          · rw [hq']
            rw [hvs1_def] at hq
            by_cases hnil : ms = []
            · rw [if_pos hnil] at hq
              have hq2 := (mem_aerase_iff hn1).mp hq
              rw [hq'] at hq2
              exact fun _ => hq2.2 rfl
            · exact hnil
        · intro q hq w hw
          rcases hmem_vs1 q hq with hq' | hq'
          · exact hdir1 q hq' w hw
          · rw [hq'] at hw ⊢
            exact hdir1 (p, ms0) (mem_of_alookup_eq_some hms0) w
              (List.mem_of_mem_erase hw)
        · intro q hq hu_in
          rcases hmem_vs1 q hq with hq' | hq'
          · have hlu := hdir1 q hq' u hu_in
            rw [huv] at hlu
            have hq1p : q.1 = p := by
              injection hlu with hlu'
              exact hlu'.symm
            rw [hvs1_def] at hq
            by_cases hnil : ms = []
            · rw [if_pos hnil] at hq
              exact ((mem_aerase_iff hn1).mp hq).2 hq1p
            · rw [if_neg hnil] at hq
              rcases (mem_aset_iff hn1).mp hq with hq2 | ⟨_, hq2⟩
              · rw [hq2] at hu_in
                simp only at hu_in
                rw [hms_def] at hu_in
                exact (hms0_nodup.mem_erase_iff.mp hu_in).1 rfl
              · exact hq2 hq1p
          · rw [hq'] at hu_in
            simp only at hu_in
            rw [hms_def] at hu_in
            exact (hms0_nodup.mem_erase_iff.mp hu_in).1 rfl
        · intro q hq hqu
          have hq1 := hdir2 q hq
          by_cases hqp : q.2 = p
          · rw [hqp] at hq1 ⊢
            rw [hms0] at hq1
            simp only [Option.getD_some] at hq1
            have hq_ms : q.1 ∈ ms := by
              rw [hms_def]
              exact hms0_nodup.mem_erase_iff.mpr ⟨hqu, hq1⟩
            have hnil : ms ≠ [] := by
              intro hcontra
              rw [hcontra] at hq_ms
              simp at hq_ms
            rw [hvs1_def, if_neg hnil, alookup_aset_self]
            simpa using hq_ms
          · have hlook : alookup vs1 q.2 = alookup vs q.2 := by
              rw [hvs1_def]
              by_cases hnil : ms = []
              · rw [if_pos hnil]
                exact alookup_aerase_ne vs hqp
              · rw [if_neg hnil]
                exact alookup_aset_ne vs ms hqp
            rw [hlook]
            exact hq1

/-- LeaveVoiceChannel preserves the store invariant. -/
theorem voiceInv_leave {h : VoiceMaps} (hin : VoiceInv h) (u : String) :
    VoiceInv (LeaveVoiceChannel h u).2 := by
  obtain ⟨vs, uv⟩ := h
  obtain ⟨hn1, hn2, hnd, hne, hvals, hdir1, hdir2⟩ := hin
  simp only at hn1 hn2 hnd hne hvals hdir1 hdir2
  cases huv : alookup uv u with
  | none =>
      rw [show (LeaveVoiceChannel ⟨vs, uv⟩ u).2 = ⟨vs, uv⟩ from by
        simp [LeaveVoiceChannel, huv]]
      exact ⟨hn1, hn2, hnd, hne, hvals, hdir1, hdir2⟩
  | some ch =>
      have hmem : u ∈ (alookup vs ch).getD [] :=
        hdir2 (u, ch) (mem_of_alookup_eq_some huv)
      obtain ⟨ms0, hms0⟩ : ∃ ms0, alookup vs ch = some ms0 := by
        cases hx : alookup vs ch with
        | none => rw [hx] at hmem; simp at hmem
        | some m => exact ⟨m, rfl⟩
      rw [hms0] at hmem
      simp only [Option.getD_some] at hmem
      have hms0_nodup : ms0.Nodup := hnd _ (mem_of_alookup_eq_some hms0)
      set ms : List String := ms0.erase u with hms_def
      set vs1 : List (String × List String) :=
        if ms = [] then aerase vs ch else aset vs ch ms with hvs1_def
      have hstep : (LeaveVoiceChannel ⟨vs, uv⟩ u).2 = ⟨vs1, aerase uv u⟩ := by
        rw [hvs1_def, hms_def]
        simp only [LeaveVoiceChannel, huv, Option.getD_some, hms0]
      rw [hstep]
      have hmem_vs1 : ∀ q ∈ vs1, q ∈ vs ∨ q = (ch, ms) := by
        intro q hq
        rw [hvs1_def] at hq
        by_cases hnil : ms = []
        · rw [if_pos hnil] at hq
          exact Or.inl (mem_aerase_weak hq)
        · rw [if_neg hnil] at hq
          exact mem_aset_weak hq
      have hn1' : NodupKeys vs1 := by
        rw [hvs1_def]
        by_cases hnil : ms = []
        · rw [if_pos hnil]; exact nodupKeys_aerase ch hn1
        · rw [if_neg hnil]; exact nodupKeys_aset ch ms hn1
      refine ⟨hn1', nodupKeys_aerase u hn2, ?_, ?_, ?_, ?_, ?_⟩
      · intro q hq
        rcases hmem_vs1 q hq with hq' | hq'
        · exact hnd _ hq'
        · rw [hq']
          exact hms0_nodup.erase u
      · intro q hq
        rcases hmem_vs1 q hq with hq' | hq'
        · exact hne _ hq'
        · rw [hq']
          rw [hvs1_def] at hq
          by_cases hnil : ms = []
          · rw [if_pos hnil] at hq
            have hq2 := (mem_aerase_iff hn1).mp hq
            rw [hq'] at hq2
            exact fun _ => hq2.2 rfl
          · exact hnil
      · intro q hq
        exact hvals q (mem_aerase_weak hq)
      · intro q hq w hw
        have hwu : w ≠ u := by
          intro hcontra
          subst hcontra
          rcases hmem_vs1 q hq with hq' | hq'
          · have hlu := hdir1 q hq' w hw
            rw [huv] at hlu
            have hq1ch : q.1 = ch := by
              injection hlu with hlu'
              exact hlu'.symm
            rw [hvs1_def] at hq
            by_cases hnil : ms = []
            · rw [if_pos hnil] at hq
              exact ((mem_aerase_iff hn1).mp hq).2 hq1ch
            · rw [if_neg hnil] at hq
              rcases (mem_aset_iff hn1).mp hq with hq2 | ⟨_, hq2⟩
              · rw [hq2] at hw
                simp only at hw
                rw [hms_def] at hw
                exact (hms0_nodup.mem_erase_iff.mp hw).1 rfl
              · exact hq2 hq1ch
          · rw [hq'] at hw
            simp only at hw
            rw [hms_def] at hw
            exact (hms0_nodup.mem_erase_iff.mp hw).1 rfl
        rw [alookup_aerase_ne uv hwu]
        rcases hmem_vs1 q hq with hq' | hq'
        · exact hdir1 q hq' w hw
        · rw [hq'] at hw ⊢
          exact hdir1 (ch, ms0) (mem_of_alookup_eq_some hms0) w
            (List.mem_of_mem_erase hw)
      · intro q hq
        have hq2 := (mem_aerase_iff hn2).mp hq
        have hq1 := hdir2 q hq2.1
        by_cases hqch : q.2 = ch
        · rw [hqch] at hq1 ⊢
          rw [hms0] at hq1
          simp only [Option.getD_some] at hq1
          have hq_ms : q.1 ∈ ms := by
            rw [hms_def]
            exact hms0_nodup.mem_erase_iff.mpr ⟨hq2.2, hq1⟩
          have hnil : ms ≠ [] := by
            intro hcontra
            rw [hcontra] at hq_ms
            simp at hq_ms
          rw [hvs1_def, if_neg hnil, alookup_aset_self]
          simpa using hq_ms
        · have hlook : alookup vs1 q.2 = alookup vs q.2 := by
            rw [hvs1_def]
            by_cases hnil : ms = []
            · rw [if_pos hnil]
              exact alookup_aerase_ne vs hqch
            · rw [if_neg hnil]
              exact alookup_aset_ne vs ms hqch
          rw [hlook]
          exact hq1

theorem voiceInv_empty : VoiceInv VoiceMaps.empty := by
  simp [VoiceInv, consistentVoice, VoiceMaps.empty, NodupKeys, akeys]

/-- Any sequence of join/leave operations with real channel ids preserves
the store invariant. -/
theorem voiceInv_runOps (ops : List VoiceOp)
    (hops : ∀ op ∈ ops, op.nonemptyChannel) {h : VoiceMaps}
    (hin : VoiceInv h) : VoiceInv (runVoiceOps h ops) := by
  induction ops generalizing h with
  | nil => simpa [runVoiceOps] using hin
  | cons op rest ih =>
      cases op with
      | join u c =>
          have hc : c ≠ "" := hops (VoiceOp.join u c) (List.mem_cons_self _ _)
          simp only [runVoiceOps]
          exact ih (fun o ho => hops o (List.mem_cons_of_mem _ ho))
            (voiceInv_join hin hc)
      | leave u =>
          simp only [runVoiceOps]
          exact ih (fun o ho => hops o (List.mem_cons_of_mem _ ho))
            (voiceInv_leave hin u)

/-! ### Behavioural lemmas about the voice store -/
theorem join_userVoice (h : VoiceMaps) (u c : String) :
    (JoinVoiceChannel h u c).2.userVoice = aset h.userVoice u c := rfl

theorem join_returns_prev (h : VoiceMaps) (u c : String) :
    (JoinVoiceChannel h u c).1 = (alookup h.userVoice u).getD "" := rfl

theorem join_channelOf (h : VoiceMaps) (u c : String) :
    VoiceChannelOf (JoinVoiceChannel h u c).2 u = some c := by
  unfold VoiceChannelOf
  rw [join_userVoice, alookup_aset_self]

theorem join_mem_new (h : VoiceMaps) (u c : String) :
    u ∈ VoiceMembers (JoinVoiceChannel h u c).2 c := by
  obtain ⟨vs, uv⟩ := h
  simp only [JoinVoiceChannel, VoiceMembers]
  rw [alookup_aset_self]
  simp only [Option.getD_some]
  exact memberAdd_mem_iff.mpr (Or.inr rfl)

/-- Switching away from a channel that is really recorded for the user
removes the user from that channel's member set. -/
theorem join_switch_removes {h : VoiceMaps} (hin : VoiceInv h)
    {u c1 c2 : String} (hc1 : c1 ≠ "") (hne12 : c1 ≠ c2)
    (hcur : VoiceChannelOf h u = some c1) :
    u ∉ VoiceMembers (JoinVoiceChannel h u c2).2 c1 := by
  obtain ⟨vs, uv⟩ := h
  obtain ⟨hn1, hn2, hnd, hnemp, hvals, hdir1, hdir2⟩ := hin
  simp only at hn1 hn2 hnd hnemp hvals hdir1 hdir2
  have huv : alookup uv u = some c1 := hcur
  have hmem : u ∈ (alookup vs c1).getD [] :=
    hdir2 (u, c1) (mem_of_alookup_eq_some huv)
  obtain ⟨ms0, hms0⟩ : ∃ ms0, alookup vs c1 = some ms0 := by
    cases hx : alookup vs c1 with
    | none => rw [hx] at hmem; simp at hmem
    | some m => exact ⟨m, rfl⟩
  rw [hms0] at hmem
  simp only [Option.getD_some] at hmem
  have hms0_nodup : ms0.Nodup := hnd _ (mem_of_alookup_eq_some hms0)
  set ms : List String := ms0.erase u with hms_def
  set vs1 : List (String × List String) :=
    if ms = [] then aerase vs c1 else aset vs c1 ms with hvs1_def
  have hstep : (JoinVoiceChannel ⟨vs, uv⟩ u c2).2.voiceState =
      aset vs1 c2 (memberAdd ((alookup vs1 c2).getD []) u) := by
    rw [hvs1_def, hms_def]
    simp only [JoinVoiceChannel, huv, Option.getD_some, hms0]
    rw [if_pos ⟨hc1, hne12⟩]
  unfold VoiceMembers
  rw [hstep, alookup_aset_ne _ _ hne12, hvs1_def]
  by_cases hnil : ms = []
  · rw [if_pos hnil, alookup_aerase_self hn1]
    simp
  · rw [if_neg hnil, alookup_aset_self]
    simp only [Option.getD_some]
    rw [hms_def]
    intro hu
    exact (hms0_nodup.mem_erase_iff.mp hu).1 rfl

/-- Joining never leaves an empty member list behind. -/
theorem nonempty_members_join {h : VoiceMaps}
    (hne : ∀ p ∈ h.voiceState, p.2 ≠ []) (u c : String) :
    ∀ p ∈ (JoinVoiceChannel h u c).2.voiceState, p.2 ≠ [] := by
  obtain ⟨vs, uv⟩ := h
  intro p hp
  simp only [JoinVoiceChannel] at hp
  rcases mem_aset_weak hp with hp | hp
  · by_cases hcond :
        (alookup uv u).getD "" ≠ "" ∧ (alookup uv u).getD "" ≠ c
    · rw [if_pos hcond] at hp
      by_cases hnil :
          ((alookup vs ((alookup uv u).getD "")).getD []).erase u = []
      · rw [if_pos hnil] at hp
        exact hne p (mem_aerase_weak hp)
      · rw [if_neg hnil] at hp
        rcases mem_aset_weak hp with hp | hp
        · exact hne p hp
        · rw [hp]
          exact hnil
    · rw [if_neg hcond] at hp
      exact hne p hp
  · rw [hp]
    exact memberAdd_ne_nil _ _

/-- Leaving never leaves an empty member list behind. -/
theorem nonempty_members_leave {h : VoiceMaps}
    (hne : ∀ p ∈ h.voiceState, p.2 ≠ []) (u : String) :
    ∀ p ∈ (LeaveVoiceChannel h u).2.voiceState, p.2 ≠ [] := by
  obtain ⟨vs, uv⟩ := h
  intro p hp
  simp only [LeaveVoiceChannel] at hp
  cases huv : alookup uv u with
  | none =>
      rw [huv] at hp
      exact hne p hp
  | some ch =>
      rw [huv] at hp
      simp only at hp
      by_cases hnil : ((alookup vs ch).getD []).erase u = []
      · rw [if_pos hnil] at hp
        exact hne p (mem_aerase_weak hp)
      · rw [if_neg hnil] at hp
        rcases mem_aset_weak hp with hp | hp
        · exact hne p hp
        · rw [hp]
          exact hnil

/-- The pruning invariant: no channel with an empty member set ever persists
in the store, over any operation sequence from the empty store. -/
theorem nonempty_members_runOps (ops : List VoiceOp) :
    ∀ p ∈ (runVoiceOps VoiceMaps.empty ops).voiceState, p.2 ≠ [] := by
  have hgen : ∀ (h : VoiceMaps), (∀ p ∈ h.voiceState, p.2 ≠ []) →
      ∀ p ∈ (runVoiceOps h ops).voiceState, p.2 ≠ [] := by
    induction ops with
    | nil => intro h hne; simpa [runVoiceOps] using hne
    | cons op rest ih =>
        intro h hne
        cases op with
        | join u c =>
            simp only [runVoiceOps]
            exact ih _ (nonempty_members_join hne u c)
        | leave u =>
            simp only [runVoiceOps]
            exact ih _ (nonempty_members_leave hne u)
  exact hgen VoiceMaps.empty (by simp [VoiceMaps.empty])

theorem leaveVoice_result {hv : VoiceMaps} {u ch : String}
    (hch : alookup hv.userVoice u = some ch) :
    (LeaveVoiceChannel hv u).1 = (ch, true) := by
  simp [LeaveVoiceChannel, hch]

theorem leaveVoice_result_none {hv : VoiceMaps} {u : String}
    (hch : alookup hv.userVoice u = none) :
    LeaveVoiceChannel hv u = (("", false), hv) := by
  simp [LeaveVoiceChannel, hch]

/-! ### Ledger lemmas about the hub event loop -/
theorem sendEventOne_broadcasts (h : HubM) (cid : Nat) :
    (sendEventOne h cid).broadcasts = h.broadcasts := by
  cases hx : alookup h.clients cid with
  | none => simp [sendEventOne, hx]
  | some cl =>
      simp only [sendEventOne, hx]
      split
      · rfl
      · split <;> rfl

theorem sendEventOne_sfuLeaves (h : HubM) (cid : Nat) :
    (sendEventOne h cid).sfuLeaves = h.sfuLeaves := by
  cases hx : alookup h.clients cid with
  | none => simp [sendEventOne, hx]
  | some cl =>
      simp only [sendEventOne, hx]
      split
      · rfl
      · split <;> rfl

theorem foldl_sendEventOne_broadcasts (l : List Nat) (h : HubM) :
    (l.foldl sendEventOne h).broadcasts = h.broadcasts := by
  induction l generalizing h with
  | nil => rfl
  | cons c cs ih => rw [List.foldl_cons, ih, sendEventOne_broadcasts]

theorem foldl_sendEventOne_sfuLeaves (l : List Nat) (h : HubM) :
    (l.foldl sendEventOne h).sfuLeaves = h.sfuLeaves := by
  induction l generalizing h with
  | nil => rfl
  | cons c cs ih => rw [List.foldl_cons, ih, sendEventOne_sfuLeaves]

theorem fanOut_broadcasts (h : HubM) (evt : EnvelopeM) :
    (fanOut h evt).broadcasts = h.broadcasts ++ [evt] := by
  unfold fanOut
  rw [foldl_sendEventOne_broadcasts]

theorem fanOut_sfuLeaves (h : HubM) (evt : EnvelopeM) :
    (fanOut h evt).sfuLeaves = h.sfuLeaves := by
  unfold fanOut
  rw [foldl_sendEventOne_sfuLeaves]

/-! ### Lemmas about the transport-close cascade -/
theorem akeys_closeTransportOf (ps : List (String × PeerM)) (uid : String)
    (t : Option Nat) : akeys (closeTransportOf ps uid t) = akeys ps := by
  cases t with
  | none => rfl
  | some tv =>
      simp only [closeTransportOf]
      rw [akeys_map_pair]
      cases hx : alookup ps uid with
      | none => rfl
      | some peer =>
          exact akeys_aset_mem _ (by rw [hx]; rfl)

/-- No consumer that survives a transport close is sourced from one of the
producers that closed with that transport. -/
theorem closeTransportOf_consumers_not_closed
    {ps : List (String × PeerM)} {uid : String} {t : Nat}
    {q : String × PeerM} (hq : q ∈ closeTransportOf ps uid (some t)) :
    ∀ kv ∈ q.2.consumers, kv.2.producerId ∉ closedProducerIds ps uid t := by
  simp only [closeTransportOf] at hq
  obtain ⟨e, he, heq⟩ := List.mem_map.mp hq
  intro kv hkv hmem
  rw [← heq] at hkv
  simp only at hkv
  have hf := (List.mem_filter.mp hkv).2
  rw [decide_eq_true_eq] at hf
  exact hf hmem

/-- Every peer entry surviving a transport close descends from an input
entry with the same key, and its consumers are among that entry's. -/
theorem closeTransportOf_mem_sub {ps : List (String × PeerM)} {uid : String}
    {t : Option Nat} {q : String × PeerM}
    (hq : q ∈ closeTransportOf ps uid t) :
    ∃ e ∈ ps, q.1 = e.1 ∧ ∀ kv ∈ q.2.consumers, kv ∈ e.2.consumers := by
  cases t with
  | none => exact ⟨q, hq, rfl, fun kv h => h⟩
  | some tv =>
      simp only [closeTransportOf] at hq
      obtain ⟨e, he, heq⟩ := List.mem_map.mp hq
      have hq1 : q.1 = e.1 := by rw [← heq]
      have hqcons : ∀ kv ∈ q.2.consumers, kv ∈ e.2.consumers := by
        intro kv hkv
        rw [← heq] at hkv
        simp only at hkv
        exact (List.mem_filter.mp hkv).1
      cases hx : alookup ps uid with
      | none =>
          rw [hx] at he
          exact ⟨e, he, hq1, hqcons⟩
      | some peer =>
          rw [hx] at he
          rcases mem_aset_weak he with he' | he'
          · exact ⟨e, he', hq1, hqcons⟩
          · refine ⟨(uid, peer), mem_of_alookup_eq_some hx, ?_, ?_⟩
            · rw [hq1, he']
            · intro kv hkv
              have hkv1 := hqcons kv hkv
              rw [he'] at hkv1
              simp only at hkv1
              exact (List.mem_filter.mp hkv1).1

/-! ## Claim theorems -/
/-- C3, counterexample: the claimed mutual-consistency invariant fails as
stated, because the empty string doubles as the "no previous channel"
sentinel inside JoinVoiceChannel. A client can send
VOICE_STATE_UPDATE with channel_id "", which JoinVoiceChannel stores like
any other channel; a subsequent join reads the previous channel back as ""
and therefore skips the removal, stranding the user in voiceState while
userVoice points elsewhere. -/
theorem voice_consistency_counterexample :
    ¬ consistentVoice (runVoiceOps VoiceMaps.empty
      [VoiceOp.join "u" "", VoiceOp.join "u" "general"]) := by
  decide

/-- C3 (amended): after every sequence of JoinVoiceChannel and
LeaveVoiceChannel operations in which every joined channel id is nonempty
(the empty string being the store's "no channel" sentinel), the two voice
maps are mutually consistent: every member listed for a channel has that
channel recorded as their current one, and every recorded channel lists its
user as a member. -/
theorem voice_maps_mutually_consistent (ops : List VoiceOp)
    (hops : ∀ op ∈ ops, op.nonemptyChannel) :
    consistentVoice (runVoiceOps VoiceMaps.empty ops) :=
  (voiceInv_runOps ops hops voiceInv_empty).2.2.2.2.2

theorem voice_maps_mutually_consistent_witness :
    (∀ op ∈ [VoiceOp.join "a" "general", VoiceOp.join "b" "general",
        VoiceOp.join "a" "lounge", VoiceOp.leave "b"], op.nonemptyChannel) ∧
    consistentVoice (runVoiceOps VoiceMaps.empty
      [VoiceOp.join "a" "general", VoiceOp.join "b" "general",
       VoiceOp.join "a" "lounge", VoiceOp.leave "b"]) :=
  ⟨by decide, voice_maps_mutually_consistent _ (by decide)⟩

/-- C5, counterexample: with the previous channel c1 = "" (reachable, since
the relay accepts channel_id "" as a join), the second join reads the
previous channel back as the "none" sentinel and does not remove the user:
after join(u, "") then join(u, "general"), membersOf("") still contains u,
contradicting the claim's `membersOf(c1) does not contain u` for c1 ≠ c2. -/
theorem join_switch_counterexample :
    (JoinVoiceChannel (JoinVoiceChannel VoiceMaps.empty "u" "").2
        "u" "general").1 = "" ∧
    "u" ∈ VoiceMembers
      (JoinVoiceChannel (JoinVoiceChannel VoiceMaps.empty "u" "").2
        "u" "general").2 "" := by
  decide

/-- C5 (amended): join returns the previous channel and adds the user to the
new one; provided the first channel id is nonempty (the empty string being
the "no previous channel" sentinel), after join(u, c1) then join(u, c2) with
c1 ≠ c2 the user is no longer a member of c1 and the second call returns c1;
and over any operation sequence from the empty store, no channel with an
empty member set persists. -/
theorem join_switch_spec :
    (∀ (h : VoiceMaps) (u c1 c2 : String), VoiceInv h → c1 ≠ "" → c1 ≠ c2 →
      (JoinVoiceChannel h u c1).1 = (VoiceChannelOf h u).getD "" ∧
      u ∈ VoiceMembers (JoinVoiceChannel h u c1).2 c1 ∧
      (JoinVoiceChannel (JoinVoiceChannel h u c1).2 u c2).1 = c1 ∧
      u ∉ VoiceMembers (JoinVoiceChannel (JoinVoiceChannel h u c1).2 u c2).2 c1) ∧
    (∀ ops : List VoiceOp,
      ∀ p ∈ (runVoiceOps VoiceMaps.empty ops).voiceState, p.2 ≠ []) := by
  constructor
  · intro h u c1 c2 hin hc1 hne
    refine ⟨join_returns_prev h u c1, join_mem_new h u c1, ?_, ?_⟩
    · rw [join_returns_prev, join_userVoice, alookup_aset_self]
      rfl
    · exact join_switch_removes (voiceInv_join hin hc1) hc1 hne
        (join_channelOf h u c1)
  · exact nonempty_members_runOps

theorem join_switch_spec_witness :
    (VoiceInv VoiceMaps.empty ∧ ("general" : String) ≠ "" ∧
      ("general" : String) ≠ "lounge") ∧
    "u1" ∉ VoiceMembers
      (JoinVoiceChannel (JoinVoiceChannel VoiceMaps.empty "u1" "general").2
        "u1" "lounge").2 "general" :=
  ⟨⟨by decide, by decide, by decide⟩,
   (join_switch_spec.1 VoiceMaps.empty "u1" "general" "lounge"
     (by decide) (by decide) (by decide)).2.2.2⟩

/-- C10: re-joining the channel the user is already in returns that channel,
leaves both voice maps exactly unchanged, and the relay's channel-switch
guard issues no SFU leave call (previous channel equals the new one). -/
theorem rejoin_same_channel_noop :
    ∀ (voice : VoiceMaps) (u c : String),
      VoiceChannelOf voice u = some c → u ∈ VoiceMembers voice c →
      JoinVoiceChannel voice u c = (c, voice) ∧
      (handleVoiceStateJoin true voice u c).newVoice = voice ∧
      (handleVoiceStateJoin true voice u c).sfuLeave = none := by
  intro voice u c huv hmem
  obtain ⟨vs, uv⟩ := voice
  have hj := join_rejoin_eq huv hmem
  refine ⟨hj, ?_, ?_⟩
  · simp [handleVoiceStateJoin, hj]
  · simp only [handleVoiceStateJoin, hj]
    rw [if_neg]
    intro hx
    exact hx.2.1 rfl

/-- C2, counterexample: the voice-leave cleanup is NOT restricted to the
user's last connection. In c2state, u1 has two registered connections;
unregistering connection 1 alone already fires the SFU leave and the
null-channel broadcast while connection 2 is still registered (it even
receives the broadcast), so "if and only if … last registered connection"
fails. -/
theorem unregister_cleanup_counterexample :
    (unregisterStep c2state 1).sfuLeaves = [("general", "u1")] ∧
    (unregisterStep c2state 1).broadcasts =
      [⟨EventVoiceStateUpdate, "u1", none⟩] ∧
    alookup (unregisterStep c2state 1).clients 2 = some ⟨"u1", 1, false⟩ := by
  decide

/-- C2 (amended): unregistering a connection triggers the voice-leave
cleanup if and only if the connection was still registered and its user was
in a voice channel — regardless of the user's other connections; when it
fires, exactly one null-channel VOICE_STATE_UPDATE broadcast and (with the
media client configured) exactly one SFU leave call for the recorded channel
are emitted. -/
theorem unregister_cleanup_iff_in_voice :
    ∀ (h : HubM) (cid : Nat),
      (alookup h.clients cid = none → unregisterStep h cid = h) ∧
      (∀ cl, alookup h.clients cid = some cl →
        (∀ ch, alookup h.voice.userVoice cl.userId = some ch →
          (unregisterStep h cid).broadcasts =
            h.broadcasts ++ [⟨EventVoiceStateUpdate, cl.userId, none⟩] ∧
          (unregisterStep h cid).sfuLeaves =
            (if h.mediaConfigured then h.sfuLeaves ++ [(ch, cl.userId)]
             else h.sfuLeaves)) ∧
        (alookup h.voice.userVoice cl.userId = none →
          (unregisterStep h cid).broadcasts = h.broadcasts ∧
          (unregisterStep h cid).sfuLeaves = h.sfuLeaves)) := by
  intro h cid
  constructor
  · intro hnone
    simp [unregisterStep, hnone]
  · intro cl hcl
    constructor
    · intro ch hch
      have hr : (LeaveVoiceChannel h.voice cl.userId).1 = (ch, true) :=
        leaveVoice_result hch
      simp only [unregisterStep, hcl, hr]
      rw [if_pos trivial]
      constructor
      · rw [fanOut_broadcasts]
      · rw [fanOut_sfuLeaves]
    · intro hch
      have hr : LeaveVoiceChannel h.voice cl.userId = (("", false), h.voice) :=
        leaveVoice_result_none hch
      simp only [unregisterStep, hcl, hr]
      rw [if_neg (by simp)]
      exact ⟨rfl, rfl⟩

theorem unregister_cleanup_iff_in_voice_witness :
    alookup c2solo.clients 7 = some ⟨"u1", 0, false⟩ ∧
    alookup c2solo.voice.userVoice "u1" = some "general" ∧
    (unregisterStep c2solo 7).broadcasts =
      [⟨EventVoiceStateUpdate, "u1", none⟩] ∧
    (unregisterStep c2solo 7).sfuLeaves = [("general", "u1")] := by
  refine ⟨by decide, by decide, ?_⟩
  have h := ((unregister_cleanup_iff_in_voice c2solo 7).2 ⟨"u1", 0, false⟩
    (by decide)).1 "general" (by decide)
  simpa [c2solo] using h

/-- C4: the send queue is NOT closed at most once on the slow-consumer
eviction path. sendEvent with a full buffer executes close(c.send) and
queues the connection for unregistration; the hub's unregister handler then
finds the connection still registered and executes close(c.send) again —
two entries for connection 1 in the close ledger, which in Go is a
close-of-closed-channel runtime panic. -/
theorem double_close_on_slow_consumer_eviction :
    (sendEventOne c4state 1).closedSends = [1] ∧
    (sendEventOne c4state 1).pendingUnregister = [1] ∧
    alookup (sendEventOne c4state 1).clients 1 = some ⟨"u1", 256, true⟩ ∧
    (unregisterStep (sendEventOne c4state 1) 1).closedSends = [1, 1] := by
  decide

theorem rejoin_same_channel_noop_witness :
    (VoiceChannelOf ⟨[("general", ["u1"])], [("u1", "general")]⟩ "u1" =
        some "general" ∧
      "u1" ∈ VoiceMembers ⟨[("general", ["u1"])], [("u1", "general")]⟩
        "general") ∧
    JoinVoiceChannel ⟨[("general", ["u1"])], [("u1", "general")]⟩
        "u1" "general" =
      ("general", ⟨[("general", ["u1"])], [("u1", "general")]⟩) :=
  ⟨⟨by decide, by decide⟩,
   (rejoin_same_channel_noop ⟨[("general", ["u1"])], [("u1", "general")]⟩
     "u1" "general" (by decide) (by decide)).1⟩

/-- C6: a voice-signal frame claiming a channel the Voice Membership Store
does not record for the sender results in no SFU Gateway call and no
response of any kind (fails closed); if the store does record the sender in
the claimed channel (and the media client is configured and the frame is
well-formed), the payload is forwarded verbatim and the response, when one
arrives, goes back to this connection only, tagged with the payload type
plus "_response". -/
theorem voice_signal_authorization :
    ∀ (voice : VoiceMaps) (uid : String) (pl : VoiceSignalPayload) (mc : Bool)
      (resp : Option String),
      (VoiceChannelOf voice uid ≠ some pl.channelId →
        handleVoiceSignal mc voice uid (some pl) = none ∧
        voiceSignalRelay (handleVoiceSignal mc voice uid (some pl)) resp =
          none) ∧
      (mc = true → VoiceChannelOf voice uid = some pl.channelId →
        pl.channelId ≠ "" → pl.sigType ≠ "" →
        handleVoiceSignal mc voice uid (some pl) =
          some ⟨pl.channelId, uid, pl.sigType, pl.sigData⟩ ∧
        ∀ r, voiceSignalRelay (handleVoiceSignal mc voice uid (some pl))
            (some r) =
          some ⟨EventVoiceSignal, pl.sigType ++ "_response", pl.channelId,
            r⟩) := by
  intro voice uid pl mc resp
  constructor
  · intro hnm
    have hnone : handleVoiceSignal mc voice uid (some pl) = none := by
      simp only [handleVoiceSignal]
      by_cases h1 : pl.channelId = "" ∨ pl.sigType = ""
      · rw [if_pos h1]
      · rw [if_neg h1]
        cases mc with
        | false => rw [if_pos (by simp)]
        | true =>
            rw [if_neg (by simp), if_neg hnm]
    refine ⟨hnone, ?_⟩
    rw [hnone]
    cases resp <;> rfl
  · intro hmc hnm h1 h2
    subst hmc
    have hcall : handleVoiceSignal true voice uid (some pl) =
        some ⟨pl.channelId, uid, pl.sigType, pl.sigData⟩ := by
      simp only [handleVoiceSignal]
      rw [if_neg (fun hx => Or.elim hx h1 h2), if_neg (by simp), if_pos hnm]
    refine ⟨hcall, ?_⟩
    intro r
    rw [hcall]
    rfl

theorem voice_signal_authorization_witness :
    (VoiceChannelOf ⟨[("general", ["u1"])], [("u1", "general")]⟩ "u1" ≠
        some "other" ∧
      handleVoiceSignal true ⟨[("general", ["u1"])], [("u1", "general")]⟩
        "u1" (some ⟨"other", "produce", "sdp"⟩) = none) ∧
    handleVoiceSignal true ⟨[("general", ["u1"])], [("u1", "general")]⟩
        "u1" (some ⟨"general", "produce", "sdp"⟩) =
      some ⟨"general", "u1", "produce", "sdp"⟩ :=
  ⟨⟨by decide,
    ((voice_signal_authorization ⟨[("general", ["u1"])], [("u1", "general")]⟩
      "u1" ⟨"other", "produce", "sdp"⟩ true none).1 (by decide)).1⟩,
   ((voice_signal_authorization ⟨[("general", ["u1"])], [("u1", "general")]⟩
      "u1" ⟨"general", "produce", "sdp"⟩ true none).2 rfl (by decide)
      (by decide) (by decide)).1⟩

/-- C7, counterexample: a resume-consumer naming a consumer that does not
exist is surfaced as HTTP 500 (the plain Error thrown by Room.signal is not
a PeerNotFoundError), not as a 404-style not-found condition as claimed. -/
theorem resume_consumer_not_found_counterexample :
    (signalRoute (fun _ => true) c7reg "general" "u1"
      (some (SignalPayloadM.resumeConsumer 99))).status = 500 ∧
    ¬ (signalRoute (fun _ => true) c7reg "general" "u1"
      (some (SignalPayloadM.resumeConsumer 99))).status = 404 := by
  decide

/-- C7 (amended): the signal endpoint returns 404 when the room does not
exist and 404 when the user is not a known Peer; an unrecognized payload
type is rejected with 400 before reaching the Room, and a resume-consumer
naming a consumer that does not exist fails with a generic error surfaced
as 500. In every one of these failure cases the registry — and so the Room —
is left untouched (the Room never crashes). -/
theorem signal_endpoint_statuses :
    ∀ (reg : MediaRegistry) (canCons : Nat → Bool) (ch uid : String)
      (sig : Option SignalPayloadM), uid ≠ "" →
      (alookup reg.rooms ch = none →
        signalRoute canCons reg ch uid sig = ⟨404, reg⟩) ∧
      (∀ room, alookup reg.rooms ch = some room →
        (sig = none → signalRoute canCons reg ch uid sig = ⟨400, reg⟩) ∧
        (∀ p, sig = some p → alookup room.peers uid = none →
          signalRoute canCons reg ch uid sig = ⟨404, reg⟩) ∧
        (∀ cid peer, sig = some (SignalPayloadM.resumeConsumer cid) →
          alookup room.peers uid = some peer →
          alookup peer.consumers cid = none →
          signalRoute canCons reg ch uid sig = ⟨500, reg⟩)) := by
  intro reg canCons ch uid sig huid
  constructor
  · intro hnone
    simp [signalRoute, huid, hnone]
  · intro room hroom
    refine ⟨?_, ?_, ?_⟩
    · intro hsig
      simp [signalRoute, huid, hroom, hsig]
    · intro p hsig hpeer
      subst hsig
      simp [signalRoute, huid, hroom, RoomM.signal, hpeer]
    · intro cid peer hsig hpeer hcons
      subst hsig
      simp [signalRoute, huid, hroom, RoomM.signal, hpeer, hcons]

theorem signal_endpoint_statuses_witness :
    ("u1" : String) ≠ "" ∧
    alookup c7reg.rooms "general" = some c7room ∧
    alookup c7room.peers "u1" = some c7peer ∧
    alookup c7peer.consumers 99 = none ∧
    signalRoute (fun _ => true) c7reg "general" "u1"
      (some (SignalPayloadM.resumeConsumer 99)) = ⟨500, c7reg⟩ := by
  refine ⟨by decide, by decide, by decide, by decide, ?_⟩
  exact ((signal_endpoint_statuses c7reg (fun _ => true) "general" "u1"
    (some (SignalPayloadM.resumeConsumer 99)) (by decide)).2 c7room
    (by decide)).2.2 99 c7peer rfl (by decide) (by decide)

/-- C8: at most one Room per channel at a time. A join for a channel with no
Room creates one lazily; a join for a channel whose Room exists reuses that
Room; the registry keys stay duplicate-free; other channels are untouched;
and a leave removes and closes the Room exactly when its peer set became
empty. -/
theorem room_lifecycle :
    ∀ (reg : MediaRegistry) (ch uid : String),
      NodupKeys reg.rooms → uid ≠ "" →
      (alookup reg.rooms ch = none →
        alookup (joinRoute reg ch uid).reg.rooms ch =
          some ((RoomM.create ch).join uid).2 ∧
        (joinRoute reg ch uid).status = 200) ∧
      (∀ room, alookup reg.rooms ch = some room →
        alookup (joinRoute reg ch uid).reg.rooms ch =
          some (room.join uid).2 ∧
        (joinRoute reg ch uid).status = 200) ∧
      NodupKeys (joinRoute reg ch uid).reg.rooms ∧
      (∀ ch', ch' ≠ ch →
        alookup (joinRoute reg ch uid).reg.rooms ch' =
          alookup reg.rooms ch') ∧
      (∀ room, alookup reg.rooms ch = some room →
        alookup (leaveRoute reg ch uid).reg.rooms ch =
          (if (room.removePeer uid).1 then none
           else some (room.removePeer uid).2) ∧
        NodupKeys (leaveRoute reg ch uid).reg.rooms) := by
  intro reg ch uid hn huid
  refine ⟨?_, ?_, ?_, ?_, ?_⟩
  · intro hnone
    simp only [joinRoute, if_neg huid, hnone]
    exact ⟨alookup_aset_self _ _ _, trivial⟩
  · intro room hroom
    simp only [joinRoute, if_neg huid, hroom]
    exact ⟨alookup_aset_self _ _ _, trivial⟩
  · simp only [joinRoute, if_neg huid]
    cases hx : alookup reg.rooms ch <;> simp only [] <;>
      exact nodupKeys_aset _ _ hn
  · intro ch' hne
    simp only [joinRoute, if_neg huid]
    cases hx : alookup reg.rooms ch <;> simp only [] <;>
      exact alookup_aset_ne _ _ hne
  · intro room hroom
    simp only [leaveRoute, if_neg huid, hroom]
    by_cases hemp : (room.removePeer uid).1
    · rw [if_pos hemp, if_pos hemp]
      exact ⟨alookup_aerase_self hn ch, nodupKeys_aerase ch hn⟩
    · rw [if_neg hemp, if_neg hemp]
      exact ⟨alookup_aset_self _ _ _, nodupKeys_aset _ _ hn⟩

theorem room_lifecycle_witness :
    NodupKeys MediaRegistry.empty.rooms ∧ ("u1" : String) ≠ "" ∧
    alookup MediaRegistry.empty.rooms "general" = none ∧
    alookup (joinRoute MediaRegistry.empty "general" "u1").reg.rooms
      "general" = some ((RoomM.create "general").join "u1").2 :=
  ⟨by decide, by decide, by decide,
   ((room_lifecycle MediaRegistry.empty "general" "u1" (by decide)
     (by decide)).1 (by decide)).1⟩

/-- C9: removing a Peer closes its transports, which removes all of its
Producers and Consumers from the Room's accounting, and closes every other
peer's Consumer sourced from one of its Producers; removePeer reports true
exactly when no Peers remain. -/
theorem removePeer_cascade :
    ∀ (r : RoomM) (uid : String) (peer : PeerM),
      NodupKeys r.peers → alookup r.peers uid = some peer → PeerWF peer →
      alookup (r.removePeer uid).2.peers uid = none ∧
      (∀ q ∈ (r.removePeer uid).2.peers, ∀ kv ∈ q.2.consumers,
        alookup peer.producers kv.2.producerId = none) ∧
      ((r.removePeer uid).1 = true ↔ (r.removePeer uid).2.peers = []) := by
  intro r uid peer hn hpeer hwf
  simp only [RoomM.removePeer, hpeer]
  have hn2 : NodupKeys (closeTransportOf
      (closeTransportOf r.peers uid peer.sendTransport) uid
      peer.recvTransport) := by
    unfold NodupKeys
    rw [akeys_closeTransportOf, akeys_closeTransportOf]
    exact hn
  refine ⟨alookup_aerase_self hn2 uid, ?_, ?_⟩
  · intro q hq kv hkv
    rw [alookup_eq_none_iff]
    intro hmem
    obtain ⟨e1, he1, _, hsub⟩ := closeTransportOf_mem_sub (mem_aerase_weak hq)
    have hkv1 := hsub kv hkv
    cases hst : peer.sendTransport with
    | none =>
        simp only [akeys] at hmem
        obtain ⟨pr, hpr, _⟩ := List.mem_map.mp hmem
        have hx := hwf.1 pr hpr
        rw [hst] at hx
        exact Option.noConfusion hx
    | some st =>
        rw [hst] at he1
        refine closeTransportOf_consumers_not_closed he1 kv hkv1 ?_
        simp only [closedProducerIds, hpeer]
        have hfil : peer.producers.filter (fun x => x.2.tid = st) =
            peer.producers := by
          rw [List.filter_eq_self]
          intro a ha
          have hx := hwf.1 a ha
          rw [hst] at hx
          simp [Option.some.inj hx]
        rw [hfil]
        exact hmem
  · constructor
    · intro hx
      exact List.isEmpty_iff.mp hx
    · intro hx
      exact List.isEmpty_iff.mpr hx

theorem removePeer_cascade_witness :
    NodupKeys c9room.peers ∧ alookup c9room.peers "A" = some c9peerA ∧
    PeerWF c9peerA ∧
    alookup (c9room.removePeer "A").2.peers "A" = none ∧
    (∀ q ∈ (c9room.removePeer "A").2.peers, ∀ kv ∈ q.2.consumers,
      alookup c9peerA.producers kv.2.producerId = none) := by
  refine ⟨by decide, by decide, by decide, ?_, ?_⟩
  · exact (removePeer_cascade c9room "A" c9peerA (by decide) (by decide)
      (by decide)).1
  · exact (removePeer_cascade c9room "A" c9peerA (by decide) (by decide)
      (by decide)).2.1

/-- C1: a Peer CAN hold two Consumers sourced from the same remote Producer.
B's first consume correctly returns one entry for A's producer 4, but a
second consume with no new producers returns ANOTHER entry for producer 4
instead of an empty list, and B then holds two consumers for producer 4:
the dedup test `peer.consumers.has(producerId)` looks a producer id up in a
map keyed by consumer ids, so it can never match. -/
theorem consume_duplicate_bug :
    ((alookup c1room4.peers "B").getD (PeerM.mkNew "B")).consumers.map
        (fun kv => kv.2.producerId) = [4] ∧
    consumeDescsOf
        (RoomM.signal (fun _ => true) c1room4 "B" SignalPayloadM.consume) =
      [⟨6, 4, "A", "audio"⟩] ∧
    ((alookup (roomAfter (fun _ => true) c1room4 "B"
        SignalPayloadM.consume).peers "B").getD (PeerM.mkNew "B")).consumers.map
        (fun kv => kv.2.producerId) = [4, 4] := by
  decide

